import Mathlib

/-!
Verification of the ballista physical-plan deserialization layer, a
shallow embedding of src/rust/ballista/src/serde/physical_plan/from_proto.rs:
the wire plan-node messages, the operator translator (the TryInto
implementation for &protobuf::PhysicalPlanNode) and the expression
binder (compile_expr), together with theorems about the translation.
-/

namespace Ballista

/-- Decoded in-memory columnar schema: an ordered sequence of column
names. Column data types play no role in any verified property, so the
embedding records only the names. -/
abbrev Schema := List String

/-- Wire schema descriptor embedded in scan, shuffle-read and empty
nodes (protobuf::Schema). -/
structure ProtoSchema where
  columns : List String
deriving DecidableEq, Repr

/-- Modelled from the spec: the Schema/Type Bridge decoding of a wire
schema descriptor into the in-memory columnar schema (the ordered,
named columns); the decoding mechanics live outside src/. -/
def decodeSchema (s : ProtoSchema) : Schema := s.columns

mutual
/-- protobuf::LogicalExprNode: a wire expression message whose
tagged-union discriminator is optional, as on the wire. -/
inductive LogicalExprNode where
  | mk : Option ExprType → LogicalExprNode

/-- protobuf::logical_expr_node::ExprType, the active variant of a wire
expression. Only the variants the translated code inspects are
distinguished; every other variant is represented by the literal
constructor, which the binder uniformly rejects. -/
inductive ExprType where
  | column (name : String)
  | literal (value : Int)
  | aggregateExpr (aggrFunction : Nat) (expr : Option LogicalExprNode)
  | sort (expr : Option LogicalExprNode) (asc : Bool) (nulls_first : Bool)
end

/-- The optional discriminator of a wire expression (the expr_type
field read by the Sort arm). -/
def LogicalExprNode.expr_type : LogicalExprNode → Option ExprType
  | .mk t => t

/-- One equality-key column-name pair of a HashJoin node. -/
structure JoinOn where
  left : String
  right : String
deriving DecidableEq, Repr

/-- Wire partition-location entry of a ShuffleReader node: a partition
index plus an executor address, each optional on the wire. -/
structure ProtoPartitionLocation where
  partition_id : Option Nat
  executor_meta : Option String
deriving DecidableEq, Repr

/-- In-memory PartitionLocation record (scheduler::planner), consumed
only by the shuffle-read operator and never mutated after decoding. -/
structure PartitionLocation where
  partition_id : Nat
  executor_meta : String
deriving DecidableEq, Repr

mutual
/-- protobuf::PhysicalPlanNode, the wire plan-node message; its
tagged-union discriminator (physical_plan_type) is optional, as on the
wire. -/
inductive PhysicalPlanNode where
  | mk : Option PhysicalPlanType → PhysicalPlanNode

/-- protobuf::physical_plan_node::PhysicalPlanType: exactly the twelve
variants matched by try_into, each carrying the fields the source
reads. -/
inductive PhysicalPlanType where
  | projection (input : Option PhysicalPlanNode) (expr : List LogicalExprNode)
  | filter (input : Option PhysicalPlanNode) (expr : Option LogicalExprNode)
  | csvScan (path : String) (schema : Option ProtoSchema) (has_header : Bool)
      (file_extension : String) (delimiter : String) (projection : List Nat)
  | parquetScan (filename : List String) (projection : List Nat)
  | selection (input : Option PhysicalPlanNode) (expr : Option LogicalExprNode)
  | coalesceBatches (input : Option PhysicalPlanNode) (target_batch_size : Nat)
  | globalLimit (input : Option PhysicalPlanNode) (limit : Nat)
  | localLimit (input : Option PhysicalPlanNode) (limit : Nat)
  | hashAggregate (input : Option PhysicalPlanNode) (mode : Int)
      (group_expr : List LogicalExprNode) (aggr_expr : List LogicalExprNode)
  | hashJoin (left : Option PhysicalPlanNode) (right : Option PhysicalPlanNode)
      (onList : List JoinOn) (join_type : Int)
  | shuffleReader (schema : Option ProtoSchema)
      (partition_location : List ProtoPartitionLocation)
  | empty (schema : Option ProtoSchema) (produce_one_row : Bool)
  | sort (input : Option PhysicalPlanNode) (expr : List LogicalExprNode)
end

/-- Typed error values of the translation layer (BallistaError), one
constructor per distinct error construction site: the proto_error calls
and the BallistaError::General in the source, the missing-field error
of the convert_required / convert_box_required macros, and the binder
errors the spec describes. Each constructor carries the data the
source interpolates into its format string. -/
inductive BallistaError where
  | unsupportedPhysicalPlan (raw : PhysicalPlanNode)
  | missingRequiredField
  | unknownAggregateMode (code : Int)
  | unknownJoinType (code : Int)
  | unexpectedExpr (raw : PhysicalPlanNode)
  | unexpectedSortExpr (raw : PhysicalPlanNode)
  | generalSortExpr (raw : PhysicalPlanNode)
  | unsupportedExpr
  | columnNotFound (name : String)
  | missingPartitionField

/-- The Rust panics reachable from the translated source: .unwrap() on
None / Err, the unimplemented macro, and out-of-bounds slice
indexing. -/
inductive PanicMsg where
  | unwrapFailure
  | unimplemented
  | indexOutOfBounds
deriving DecidableEq, Repr

/-- Outcome of a fallible Rust computation that may also abort the
process: Ok, Err, or a panic. The panicked constructor marks exactly
the control paths on which the Rust code does not return. -/
inductive RResult (α : Type) where
  | ok (a : α)
  | err (e : BallistaError)
  | panicked (m : PanicMsg)

/-- Sequencing of fallible computations: the Rust ? operator and method
chaining; errors and panics short-circuit. -/
def RResult.bind {α β : Type} : RResult α → (α → RResult β) → RResult β
  | .ok a, f => f a
  | .err e, _ => .err e
  | .panicked m, _ => .panicked m

/-- Lift a returned Result into the translation outcome (the Rust ?
operator on an Except-valued call). -/
def RResult.ofExcept {α : Type} : Except BallistaError α → RResult α
  | .ok a => .ok a
  | .error e => .err e

/-- Option::unwrap — panics on None. -/
def RResult.unwrapOption {α : Type} : Option α → RResult α
  | some a => .ok a
  | none => .panicked .unwrapFailure

/-- Result::unwrap — panics on Err. -/
def RResult.unwrapExcept {α : Type} : Except BallistaError α → RResult α
  | .ok a => .ok a
  | .error _ => .panicked .unwrapFailure

/-- iter().map(f).collect::<Result<Vec<_>, _>>() — maps f over the list
left to right and stops at the first non-Ok outcome. -/
def RResult.mapList {α β : Type} (f : α → RResult β) : List α → RResult (List β)
  | [] => .ok []
  | x :: xs => (f x).bind fun y => (RResult.mapList f xs).bind fun ys => .ok (y :: ys)

/-- protobuf::AggregateMode, the wire enumeration of aggregate modes. -/
inductive ProtoAggregateMode where
  | Partial
  | Final
deriving DecidableEq, Repr

/-- datafusion::physical_plan::hash_aggregate::AggregateMode. -/
inductive AggregateMode where
  | Partial
  | Final
deriving DecidableEq, Repr

/-- Modelled from the spec: the generated protobuf enum decoder
AggregateMode::from_i32 — the Partial code is 0 and the Final code is
1; any other code is unknown. -/
def aggregateModeFromI32 (code : Int) : Option ProtoAggregateMode :=
  if code = 0 then some .Partial else if code = 1 then some .Final else none

/-- The match in the HashAggregate arm mapping the wire enumeration to
the engine enumeration. -/
def aggModeOfProto : ProtoAggregateMode → AggregateMode
  | .Partial => .Partial
  | .Final => .Final

/-- protobuf::JoinType, the wire enumeration of join types. -/
inductive ProtoJoinType where
  | Inner
  | Left
  | Right
deriving DecidableEq, Repr

/-- datafusion::physical_plan::hash_utils::JoinType. -/
inductive JoinType where
  | Inner
  | Left
  | Right
deriving DecidableEq, Repr

/-- Modelled from the spec: the generated protobuf enum decoder
JoinType::from_i32 — the Inner code is 0, the Left code is 1 and the
Right code is 2; any other code is unknown. -/
def joinTypeFromI32 (code : Int) : Option ProtoJoinType :=
  if code = 0 then some .Inner
  else if code = 1 then some .Left
  else if code = 2 then some .Right
  else none

/-- The match in the HashJoin arm mapping the wire enumeration to the
engine enumeration. -/
def joinTypeOfProto : ProtoJoinType → JoinType
  | .Inner => .Inner
  | .Left => .Left
  | .Right => .Right

/-- Bound physical expression (datafusion PhysicalExpr). The binder
only ever produces column references here, via col(name). -/
inductive PhysExpr where
  | column (name : String)
deriving DecidableEq, Repr

/-- datafusion logical Expr, as far as the aggregate path of the
translator uses it. -/
inductive Expr where
  | column (name : String)
  | aggregateFunction (fn : Nat) (arg : Expr)
deriving DecidableEq, Repr

/-- Modelled from the spec: the repository's LogicalExprNode → Expr
decoding (the logical-plan from_proto module, not under src/): a
column reference decodes to a column expression, an aggregate call
decodes its argument recursively, and any other wire expression
variant is an unsupported-expression error, never a silent default; a
missing discriminator or a missing aggregate argument is likewise an
error. -/
def logicalExprFromProto : LogicalExprNode → Except BallistaError Expr
  | .mk none => .error .unsupportedExpr
  | .mk (some (.column name)) => .ok (.column name)
  | .mk (some (.literal _)) => .error .unsupportedExpr
  | .mk (some (.aggregateExpr fn arg)) =>
    match arg with
    | none => .error .missingRequiredField
    | some child =>
      match logicalExprFromProto child with
      | .error e => .error e
      | .ok c => .ok (.aggregateFunction fn c)
  | .mk (some (.sort _ _ _)) => .error .unsupportedExpr

/-- Modelled from the spec: DataFusion's create_physical_expr for the
expression forms that reach it here — a column reference binds by name
against the schema, an unresolvable name is a binding error, and an
aggregate call is not a physical expression. -/
def create_physical_expr (e : Expr) (schema : Schema) : Except BallistaError PhysExpr :=
  match e with
  | .column name => if name ∈ schema then .ok (.column name) else .error (.columnNotFound name)
  | .aggregateFunction _ _ => .error .unsupportedExpr

/-- compile_expr from the source: decode the wire expression into a
logical Expr (the ? operator propagates the failure as an error) and
compile it against the schema with a fresh default planner state. -/
def compile_expr (expr : LogicalExprNode) (schema : Schema) : Except BallistaError PhysExpr :=
  match logicalExprFromProto expr with
  | .error e => .error e
  | .ok e2 => create_physical_expr e2 schema

/-- Bound physical aggregate expression (datafusion AggregateExpr),
keeping the aggregate-function code and its argument column. -/
structure AggExpr where
  fn : Nat
  argName : String
deriving DecidableEq, Repr

/-- Modelled from the spec: DataFusion's create_aggregate_expr — the
already-decoded logical aggregate expression is re-compiled into a
physical aggregate expression against the input schema (the logical
schema passed alongside carries the same column names); the argument
column must resolve by name. -/
def create_aggregate_expr (e : Expr) (schema : Schema) : Except BallistaError AggExpr :=
  match e with
  | .aggregateFunction fn (.column name) =>
    if name ∈ schema then .ok ⟨fn, name⟩ else .error (.columnNotFound name)
  | _ => .error .unsupportedExpr

/-- datafusion CsvReadOptions as produced by the builder chain in the
CsvScan arm. -/
structure CsvReadOptions where
  has_header : Bool
  file_extension : String
  delimiter : Char
  schema : Schema
deriving DecidableEq, Repr

/-- datafusion SortOptions. -/
structure SortOptions where
  descending : Bool
  nulls_first : Bool
deriving DecidableEq, Repr

/-- datafusion PhysicalSortExpr: a bound expression plus its sort
options. -/
structure PhysicalSortExpr where
  expr : PhysExpr
  options : SortOptions
deriving DecidableEq, Repr

/-- Placeholder column name for a projected index outside the stored
schema. -/
def noName : String := ""

/-- Executable operator tree (Arc<dyn ExecutionPlan>): one constructor
per concrete operator the translator constructs, keeping the
constructor arguments the source passes. -/
inductive ExecPlan where
  | projectionExec (expr : List (PhysExpr × String)) (input : ExecPlan)
  | filterExec (predicate : PhysExpr) (input : ExecPlan)
  | csvExec (path : String) (options : CsvReadOptions) (projection : List Nat)
      (batch_size : Nat)
  | parquetExec (filenames : List String) (projection : List Nat)
      (batch_size : Nat) (max_concurrency : Nat)
  | coalesceBatchesExec (input : ExecPlan) (target_batch_size : Nat)
  | globalLimitExec (input : ExecPlan) (limit : Nat) (concurrency : Nat)
  | localLimitExec (input : ExecPlan) (limit : Nat)
  | hashAggregateExec (mode : AggregateMode) (group_expr : List (PhysExpr × String))
      (aggr_expr : List AggExpr) (input : ExecPlan)
  | hashJoinExec (left : ExecPlan) (right : ExecPlan)
      (onPairs : List (String × String)) (join_type : JoinType)
  | shuffleReaderExec (partition_location : List PartitionLocation) (schema : Schema)
  | emptyExec (produce_one_row : Bool) (schema : Schema)
  | sortExec (expr : List PhysicalSortExpr) (input : ExecPlan) (concurrency : Nat)
deriving DecidableEq

/-- Modelled from the spec: each operator's declared output schema
(the ExecutionPlan::schema contract) — a projection is named by its
(expr, output-name) pairs; filters, limits, batch coalescing and sorts
pass their input schema through; a CSV scan projects its stored file
schema by column index; joins concatenate the child schemas; an
aggregate is named by its group and aggregate expressions; leaves that
carry a schema report it. A Parquet scan reads its schema from the
files on disk, which lies outside the embedding. -/
def ExecPlan.schema : ExecPlan → Schema
  | .projectionExec expr _ => expr.map (fun p => p.2)
  | .filterExec _ input => input.schema
  | .csvExec _ options projection _ => projection.map (fun i => options.schema.getD i noName)
  | .parquetExec _ _ _ _ => []
  | .coalesceBatchesExec input _ => input.schema
  | .globalLimitExec input _ _ => input.schema
  | .localLimitExec input _ => input.schema
  | .hashAggregateExec _ group_expr aggr_expr _ =>
    group_expr.map (fun p => p.2) ++ aggr_expr.map (fun a => a.argName)
  | .hashJoinExec left right _ _ => left.schema ++ right.schema
  | .shuffleReaderExec _ schema => schema
  | .emptyExec _ schema => schema
  | .sortExec _ input _ => input.schema

/-- Modelled from the spec: ProjectionExec::try_new, the engine
constructor building the projection operator over the (expression,
output-name) pairs; construction failures of the underlying engine are
outside the verified claims, so construction succeeds. -/
def ProjectionExec.try_new (expr : List (PhysExpr × String)) (input : ExecPlan) :
    Except BallistaError ExecPlan :=
  .ok (.projectionExec expr input)

/-- Modelled from the spec: FilterExec::try_new. -/
def FilterExec.try_new (predicate : PhysExpr) (input : ExecPlan) :
    Except BallistaError ExecPlan :=
  .ok (.filterExec predicate input)

/-- Modelled from the spec: CsvExec::try_new over a path, the scan
options built from the wire fields, the column-index projection and
the executor-chosen batch size. -/
def CsvExec.try_new (path : String) (options : CsvReadOptions)
    (projection : List Nat) (batch_size : Nat) : Except BallistaError ExecPlan :=
  .ok (.csvExec path options projection batch_size)

/-- Modelled from the spec: ParquetExec::try_from_files over the listed
files, the column-index projection, the executor-chosen batch size and
the executor-chosen maximum file-read concurrency. -/
def ParquetExec.try_from_files (filenames : List String) (projection : List Nat)
    (batch_size : Nat) (max_concurrency : Nat) : Except BallistaError ExecPlan :=
  .ok (.parquetExec filenames projection batch_size max_concurrency)

/-- CoalesceBatchesExec::new. -/
def CoalesceBatchesExec.new (input : ExecPlan) (target_batch_size : Nat) : ExecPlan :=
  .coalesceBatchesExec input target_batch_size

/-- GlobalLimitExec::new. -/
def GlobalLimitExec.new (input : ExecPlan) (limit : Nat) (concurrency : Nat) : ExecPlan :=
  .globalLimitExec input limit concurrency

/-- LocalLimitExec::new. -/
def LocalLimitExec.new (input : ExecPlan) (limit : Nat) : ExecPlan :=
  .localLimitExec input limit

/-- Modelled from the spec: HashAggregateExec::try_new. -/
def HashAggregateExec.try_new (mode : AggregateMode)
    (group_expr : List (PhysExpr × String)) (aggr_expr : List AggExpr)
    (input : ExecPlan) : Except BallistaError ExecPlan :=
  .ok (.hashAggregateExec mode group_expr aggr_expr input)

/-- Modelled from the spec: HashJoinExec::try_new over the two children,
the equality-key name pairs and the decoded join type. -/
def HashJoinExec.try_new (left : ExecPlan) (right : ExecPlan)
    (onPairs : List (String × String)) (join_type : JoinType) :
    Except BallistaError ExecPlan :=
  .ok (.hashJoinExec left right onPairs join_type)

/-- Modelled from the spec: ShuffleReaderExec::try_new, storing the
decoded partition locations and the decoded schema. -/
def ShuffleReaderExec.try_new (partition_location : List PartitionLocation)
    (schema : Schema) : Except BallistaError ExecPlan :=
  .ok (.shuffleReaderExec partition_location schema)

/-- EmptyExec::new. -/
def EmptyExec.new (produce_one_row : Bool) (schema : Schema) : ExecPlan :=
  .emptyExec produce_one_row schema

/-- Modelled from the spec: SortExec::try_new with the fixed sort
concurrency of one partition. -/
def SortExec.try_new (expr : List PhysicalSortExpr) (input : ExecPlan)
    (concurrency : Nat) : Except BallistaError ExecPlan :=
  .ok (.sortExec expr input concurrency)

/-- Modelled from the spec: decoding one wire partition-location entry
into the in-memory PartitionLocation record — pure decoding, failing
when a required field is absent (the TryInto on the protobuf
PartitionLocation, not under src/). -/
def decodePartitionLocation (p : ProtoPartitionLocation) :
    Except BallistaError PartitionLocation :=
  match p.partition_id, p.executor_meta with
  | some i, some m => .ok ⟨i, m⟩
  | _, _ => .error .missingPartitionField

/-- The closure mapped over the expression lists of the Projection and
HashAggregate arms: compile the wire expression against the input
schema and pair it with the hard-coded output name "unused". -/
def compileWithUnused (schema : Schema) (e : LogicalExprNode) :
    RResult (PhysExpr × String) :=
  RResult.ofExcept ((compile_expr e schema).map (fun pe => (pe, "unused")))

/-- The closure mapped over aggr_expr in the HashAggregate arm: decode
the wire expression into a logical expression with .unwrap() — a panic
on a failed decode — and re-compile it into a physical aggregate
expression against the input schema. -/
def compileAggregate (schema : Schema) (e : LogicalExprNode) : RResult AggExpr :=
  (RResult.unwrapExcept (logicalExprFromProto e)).bind fun expr2 =>
  RResult.ofExcept (create_aggregate_expr expr2 schema)

/-- scan.delimiter.as_bytes()[0] — Rust slice indexing panics on an
empty string. -/
def firstByte (s : String) : RResult Char :=
  match s.data with
  | [] => .panicked .indexOutOfBounds
  | c :: _ => .ok c

/-- The closure mapped over sort.expr in the Sort arm: the expression
must carry a discriminator and it must be the sort-descriptor variant;
its child expression is bound against the input schema and the
physical sort expression is built with descending equal to the negated
wire asc flag and nulls_first passed through unchanged. Any other
variant is a structural error carrying the raw plan node. -/
def sortExprFromProto (self : PhysicalPlanNode) (inputSchema : Schema)
    (e : LogicalExprNode) : RResult PhysicalSortExpr :=
  match e.expr_type with
  | none => .err (.unexpectedExpr self)
  | some et =>
    match et with
    | .sort child asc nulls_first =>
      match child with
      | none => .err (.unexpectedSortExpr self)
      | some c =>
        match compile_expr c inputSchema with
        | .error e2 => .err e2
        | .ok pe => .ok ⟨pe, ⟨!asc, nulls_first⟩⟩
    | _ => .err (.generalSortExpr self)

/-- The translation entry point: try_into for
&protobuf::PhysicalPlanNode. It dispatches on the optional
discriminator (a missing discriminator is the unsupported-plan proto
error over the raw message), recursively translates child inputs (a
missing child is the required-field error of the convert macros),
binds expressions against the child schema, and constructs the
executable operator. The panicking constructs of the source — the
unwrap on the Filter predicate, the unimplemented macro in the
Selection arm, the unwrap on each aggregate expression decode, and the
slice indexing into the CSV delimiter — are modelled as the panicked
outcome. -/
def try_into (node : PhysicalPlanNode) : RResult ExecPlan :=
  match node with
  | .mk none => .err (.unsupportedPhysicalPlan node)
  | .mk (some planType) =>
    match planType with
    | .projection input exprList =>
      match input with
      | none => .err .missingRequiredField
      | some inputNode =>
        (try_into inputNode).bind fun inputPlan =>
        (RResult.mapList (compileWithUnused inputPlan.schema) exprList).bind
          fun exprs =>
        RResult.ofExcept (ProjectionExec.try_new exprs inputPlan)
    | .filter input exprOpt =>
      match input with
      | none => .err .missingRequiredField
      | some inputNode =>
        (try_into inputNode).bind fun inputPlan =>
        (RResult.unwrapOption exprOpt).bind fun e =>
        (RResult.ofExcept (compile_expr e inputPlan.schema)).bind fun predicate =>
        RResult.ofExcept (FilterExec.try_new predicate inputPlan)
    | .csvScan path schemaOpt has_header file_extension delimiter projection =>
      match schemaOpt with
      | none => .err .missingRequiredField
      | some ps =>
        let schema := decodeSchema ps
        (firstByte delimiter).bind fun d =>
        let options : CsvReadOptions := ⟨has_header, file_extension, d, schema⟩
        let batch_size := 32768
        RResult.ofExcept (CsvExec.try_new path options projection batch_size)
    | .parquetScan filename projection =>
      let batch_size := 32768
      let max_concurrency := 8
      RResult.ofExcept
        (ParquetExec.try_from_files filename projection batch_size max_concurrency)
    | .selection _ _ => .panicked .unimplemented
    | .coalesceBatches input target_batch_size =>
      match input with
      | none => .err .missingRequiredField
      | some inputNode =>
        (try_into inputNode).bind fun inputPlan =>
        .ok (CoalesceBatchesExec.new inputPlan target_batch_size)
    | .globalLimit input limit =>
      match input with
      | none => .err .missingRequiredField
      | some inputNode =>
        (try_into inputNode).bind fun inputPlan =>
        .ok (GlobalLimitExec.new inputPlan limit 0)
    | .localLimit input limit =>
      match input with
      | none => .err .missingRequiredField
      | some inputNode =>
        (try_into inputNode).bind fun inputPlan =>
        .ok (LocalLimitExec.new inputPlan limit)
    | .hashAggregate input mode group_expr aggr_expr =>
      match input with
      | none => .err .missingRequiredField
      | some inputNode =>
        (try_into inputNode).bind fun inputPlan =>
        match aggregateModeFromI32 mode with
        | none => .err (.unknownAggregateMode mode)
        | some protoMode =>
          let agg_mode := aggModeOfProto protoMode
          (RResult.mapList (compileWithUnused inputPlan.schema) group_expr).bind
            fun group =>
          (RResult.mapList (compileAggregate inputPlan.schema) aggr_expr).bind
            fun agg =>
          RResult.ofExcept (HashAggregateExec.try_new agg_mode group agg inputPlan)
    | .hashJoin left right onList join_type =>
      match left with
      | none => .err .missingRequiredField
      | some leftNode =>
        (try_into leftNode).bind fun leftPlan =>
        match right with
        | none => .err .missingRequiredField
        | some rightNode =>
          (try_into rightNode).bind fun rightPlan =>
          let onPairs := onList.map (fun c => (c.left, c.right))
          match joinTypeFromI32 join_type with
          | none => .err (.unknownJoinType join_type)
          | some protoJoin =>
            RResult.ofExcept
              (HashJoinExec.try_new leftPlan rightPlan onPairs
                (joinTypeOfProto protoJoin))
    | .shuffleReader schemaOpt partition_location =>
      match schemaOpt with
      | none => .err .missingRequiredField
      | some ps =>
        let schema := decodeSchema ps
        (RResult.mapList
          (fun p => RResult.ofExcept (decodePartitionLocation p))
          partition_location).bind fun locs =>
        RResult.ofExcept (ShuffleReaderExec.try_new locs schema)
    | .empty schemaOpt produce_one_row =>
      match schemaOpt with
      | none => .err .missingRequiredField
      | some ps => .ok (EmptyExec.new produce_one_row (decodeSchema ps))
    | .sort input exprList =>
      match input with
      | none => .err .missingRequiredField
      | some inputNode =>
        (try_into inputNode).bind fun inputPlan =>
        (RResult.mapList (sortExprFromProto node inputPlan.schema) exprList).bind
          fun exprs =>
        RResult.ofExcept (SortExec.try_new exprs inputPlan 1)

/-! ### Helper lemmas about the fallible iteration combinator -/

/-- Inversion of a successful bind: the first computation succeeded and
the continuation succeeded on its value. -/
theorem RResult.bind_eq_ok {α β : Type} (m : RResult α) (f : α → RResult β) (b : β)
    (h : m.bind f = .ok b) : ∃ a, m = .ok a ∧ f a = .ok b := by
  cases m with
  | ok a => exact ⟨a, rfl, h⟩
  | err e => simp [RResult.bind] at h
  | panicked p => simp [RResult.bind] at h

/-- A successful collect maps the list pointwise: the output has the
input's length and the i-th output is the successful image of the i-th
input. -/
theorem RResult.mapList_ok_pointwise {α β : Type} (f : α → RResult β) :
    ∀ (l : List α) (r : List β), RResult.mapList f l = .ok r →
      r.length = l.length ∧
      ∀ (i : Nat) (hi : i < l.length) (hr : i < r.length),
        f (l.get ⟨i, hi⟩) = .ok (r.get ⟨i, hr⟩) := by
  intro l
  induction l with
  | nil =>
    intro r h
    simp only [RResult.mapList] at h
    injection h with h
    subst h
    exact ⟨rfl, fun i hi _ => absurd hi (Nat.not_lt_zero i)⟩
  | cons x xs ih =>
    intro r h
    simp only [RResult.mapList] at h
    cases hfx : f x with
    | ok y =>
      rw [hfx] at h
      simp only [RResult.bind] at h
      cases hxs : RResult.mapList f xs with
      | ok ys =>
        rw [hxs] at h
        simp only [RResult.bind] at h
        injection h with h
        subst h
        obtain ⟨hlen, hpt⟩ := ih ys hxs
        refine ⟨by simp [hlen], ?_⟩
        intro i hi hr
        cases i with
        | zero => simpa using hfx
        | succ j =>
          have hj : j < xs.length := by simpa using hi
          have hj2 : j < ys.length := by simpa using hr
          simpa using hpt j hj hj2
      | err e => rw [hxs] at h; simp [RResult.bind] at h
      | panicked m => rw [hxs] at h; simp [RResult.bind] at h
    | err e => rw [hfx] at h; simp [RResult.bind] at h
    | panicked m => rw [hfx] at h; simp [RResult.bind] at h

/-- If every element maps successfully, the collect succeeds. -/
theorem RResult.mapList_ok_of_forall {α β : Type} (f : α → RResult β) :
    ∀ (l : List α), (∀ x ∈ l, ∃ y, f x = .ok y) →
      ∃ r, RResult.mapList f l = .ok r := by
  intro l
  induction l with
  | nil => exact fun _ => ⟨[], rfl⟩
  | cons x xs ih =>
    intro h
    obtain ⟨y, hy⟩ := h x (List.mem_cons_self x xs)
    obtain ⟨r, hr⟩ := ih (fun z hz => h z (List.mem_cons_of_mem x hz))
    exact ⟨y :: r, by simp [RResult.mapList, hy, hr, RResult.bind]⟩

/-- If the collect succeeds, every element mapped successfully. -/
theorem RResult.mapList_mem_ok {α β : Type} (f : α → RResult β) (x : α) :
    ∀ (l : List α) (r : List β), RResult.mapList f l = .ok r → x ∈ l →
      ∃ y, f x = .ok y := by
  intro l
  induction l with
  | nil => intro r _ hx; cases hx
  | cons z zs ih =>
    intro r h hx
    simp only [RResult.mapList] at h
    cases hfz : f z with
    | ok y =>
      rw [hfz] at h
      simp only [RResult.bind] at h
      cases hzs : RResult.mapList f zs with
      | ok ys =>
        rcases List.mem_cons.mp hx with hEq | hmem
        · subst hEq; exact ⟨y, hfz⟩
        · exact ih ys hzs hmem
      | err e => rw [hzs] at h; simp [RResult.bind] at h
      | panicked m => rw [hzs] at h; simp [RResult.bind] at h
    | err e => rw [hfz] at h; simp [RResult.bind] at h
    | panicked m => rw [hfz] at h; simp [RResult.bind] at h

/-- A panicking collect comes from a panicking element. -/
theorem RResult.mapList_panicked_mem {α β : Type} (f : α → RResult β) :
    ∀ (l : List α) (m : PanicMsg), RResult.mapList f l = .panicked m →
      ∃ x ∈ l, f x = .panicked m := by
  intro l
  induction l with
  | nil => intro m h; simp [RResult.mapList] at h
  | cons z zs ih =>
    intro m h
    simp only [RResult.mapList] at h
    cases hfz : f z with
    | ok y =>
      rw [hfz] at h
      simp only [RResult.bind] at h
      cases hzs : RResult.mapList f zs with
      | ok ys => rw [hzs] at h; simp [RResult.bind] at h
      | err e => rw [hzs] at h; simp [RResult.bind] at h
      | panicked m2 =>
        rw [hzs] at h
        simp only [RResult.bind] at h
        injection h with h
        subst h
        obtain ⟨x, hx, hfx⟩ := ih m2 hzs
        exact ⟨x, List.mem_cons_of_mem z hx, hfx⟩
    | err e => rw [hfz] at h; simp [RResult.bind] at h
    | panicked m2 =>
      rw [hfz] at h
      simp only [RResult.bind] at h
      injection h with h
      subst h
      exact ⟨z, List.mem_cons_self z zs, hfz⟩

/-- The per-expression binder of the Sort arm returns Ok or Err; it
never panics. -/
theorem sortExprFromProto_no_panic (self : PhysicalPlanNode) (schema : Schema)
    (e : LogicalExprNode) (m : PanicMsg) :
    sortExprFromProto self schema e ≠ .panicked m := by
  intro h
  cases e with
  | mk t =>
    cases t with
    | none => simp [sortExprFromProto, LogicalExprNode.expr_type] at h
    | some et =>
      cases et with
      | column name => simp [sortExprFromProto, LogicalExprNode.expr_type] at h
      | literal v => simp [sortExprFromProto, LogicalExprNode.expr_type] at h
      | aggregateExpr fn a => simp [sortExprFromProto, LogicalExprNode.expr_type] at h
      | sort child asc nf =>
        cases child with
        | none => simp [sortExprFromProto, LogicalExprNode.expr_type] at h
        | some c =>
          cases hce : compile_expr c schema with
          | error e2 => simp [sortExprFromProto, LogicalExprNode.expr_type, hce] at h
          | ok pe => simp [sortExprFromProto, LogicalExprNode.expr_type, hce] at h

/-! ### Claim theorems -/

/-- C9: the wire plan-node message whose variant discriminator is
absent (physical_plan_type = None) fails with the missing-variant
proto error carrying the raw message; no operator is constructed. -/
theorem missing_discriminator_fails :
    try_into (.mk none) = .err (.unsupportedPhysicalPlan (.mk none)) := rfl

/-- C1: evaluating the translator at the inputs the claim covers shows
the opposite of the claim: a structurally valid Selection node hits
the unimplemented macro and a Filter node whose predicate expression
is absent hits the unwrap, so both abort (panic) instead of returning
a typed error value. -/
theorem selection_and_missing_predicate_panic :
    try_into (.mk (some (.selection
        (some (.mk (some (.empty (some ⟨["a"]⟩) false))))
        (some (.mk (some (.column "a"))))))) = .panicked .unimplemented ∧
    try_into (.mk (some (.filter
        (some (.mk (some (.empty (some ⟨["a"]⟩) false)))) none))) =
      .panicked .unwrapFailure := ⟨rfl, rfl⟩

/-- C10: translation is deterministic — two independent calls on the
same wire node that construct operators construct equal operators with
identical output schemas. The embedding is a pure function of the
message, mirroring the source, which reads the node through a shared
reference, builds a fresh value and mutates nothing. -/
theorem translation_deterministic (node : PhysicalPlanNode) (p q : ExecPlan)
    (h1 : try_into node = .ok p) (h2 : try_into node = .ok q) :
    p = q ∧ ExecPlan.schema p = ExecPlan.schema q := by
  have h := h1.symm.trans h2
  injection h with h
  exact ⟨h, by rw [h]⟩

/-- Witness for C10 at a concrete Empty node. -/
theorem translation_deterministic_witness :
    ExecPlan.emptyExec false ["a"] = ExecPlan.emptyExec false ["a"] ∧
    ExecPlan.schema (ExecPlan.emptyExec false ["a"]) =
      ExecPlan.schema (ExecPlan.emptyExec false ["a"]) :=
  translation_deterministic (.mk (some (.empty (some ⟨["a"]⟩) false))) _ _ rfl rfl

/-- C2 counterexample: a Projection node over a single-column input
(schema ["a"]) with one column-reference expression for column "a"
translates to a projection operator whose single output column is
named "unused" — the hard-coded placeholder — and not per any name
supplied on the wire: the only name carried by the wire (expression,
name) data is "a", and "unused" differs from it. -/
theorem projection_output_named_unused_cex :
    try_into (.mk (some (.projection
        (some (.mk (some (.empty (some ⟨["a"]⟩) false))))
        [.mk (some (.column "a"))]))) =
      .ok (.projectionExec [(.column "a", "unused")] (.emptyExec false ["a"])) ∧
    ExecPlan.schema
        (.projectionExec [(.column "a", "unused")] (.emptyExec false ["a"])) =
      ["unused"] ∧
    "unused" ≠ "a" := ⟨rfl, rfl, by decide⟩

/-- C2 amended: for every well-formed Projection node over a
single-column input with one column-reference expression naming that
column, translation yields a projection operator whose output schema
has exactly one column, named by the hard-coded placeholder "unused";
the translator pairs every projection expression with "unused" and
propagates no wire-supplied output name. -/
theorem projection_single_column_schema (inputNode : PhysicalPlanNode)
    (inputPlan : ExecPlan) (name : String)
    (hin : try_into inputNode = .ok inputPlan)
    (hschema : ExecPlan.schema inputPlan = [name]) :
    try_into (.mk (some (.projection (some inputNode)
        [.mk (some (.column name))]))) =
      .ok (.projectionExec [(.column name, "unused")] inputPlan) ∧
    ExecPlan.schema (.projectionExec [(.column name, "unused")] inputPlan) =
      ["unused"] := by
  constructor
  · have hc : compile_expr (.mk (some (.column name))) (ExecPlan.schema inputPlan) =
        .ok (.column name) := by
      rw [hschema]
      simp [compile_expr, logicalExprFromProto, create_physical_expr]
    simp only [try_into]
    rw [hin]
    simp [RResult.bind, RResult.mapList, RResult.ofExcept, compileWithUnused,
      hc, Except.map, ProjectionExec.try_new]
  · simp [ExecPlan.schema]

/-- C3: translating a HashAggregate node whose input translates
decodes the mode code first — a code outside {0, 1} fails with the
unknown-enum error carrying the code, mode code 0 only ever constructs
a Partial-mode aggregate operator, and mode code 1 only ever
constructs a Final-mode aggregate operator. -/
theorem hash_aggregate_mode_decoding (inputNode : PhysicalPlanNode)
    (inputPlan : ExecPlan) (mode : Int)
    (g a : List LogicalExprNode)
    (hin : try_into inputNode = .ok inputPlan) :
    (mode ≠ 0 → mode ≠ 1 →
      try_into (.mk (some (.hashAggregate (some inputNode) mode g a))) =
        .err (.unknownAggregateMode mode)) ∧
    (∀ q, try_into (.mk (some (.hashAggregate (some inputNode) 0 g a))) = .ok q →
      ∃ gr ag, q = .hashAggregateExec .Partial gr ag inputPlan) ∧
    (∀ q, try_into (.mk (some (.hashAggregate (some inputNode) 1 g a))) = .ok q →
      ∃ gr ag, q = .hashAggregateExec .Final gr ag inputPlan) := by
  refine ⟨?_, ?_, ?_⟩
  · intro h0 h1
    have hm : aggregateModeFromI32 mode = none := by
      simp [aggregateModeFromI32, h0, h1]
    simp only [try_into]
    rw [hin]
    simp [RResult.bind, hm]
  · intro q hq
    simp only [try_into] at hq
    rw [hin] at hq
    simp only [RResult.bind] at hq
    have hm : aggregateModeFromI32 0 = some .Partial := by
      simp [aggregateModeFromI32]
    rw [hm] at hq
    simp only [aggModeOfProto] at hq
    obtain ⟨gr, hgr, hq⟩ := RResult.bind_eq_ok _ _ _ hq
    obtain ⟨ag, hag, hq⟩ := RResult.bind_eq_ok _ _ _ hq
    simp only [HashAggregateExec.try_new, RResult.ofExcept] at hq
    injection hq with hq
    exact ⟨gr, ag, hq.symm⟩
  · intro q hq
    simp only [try_into] at hq
    rw [hin] at hq
    simp only [RResult.bind] at hq
    have hm : aggregateModeFromI32 1 = some .Final := by
      simp [aggregateModeFromI32]
    rw [hm] at hq
    simp only [aggModeOfProto] at hq
    obtain ⟨gr, hgr, hq⟩ := RResult.bind_eq_ok _ _ _ hq
    obtain ⟨ag, hag, hq⟩ := RResult.bind_eq_ok _ _ _ hq
    simp only [HashAggregateExec.try_new, RResult.ofExcept] at hq
    injection hq with hq
    exact ⟨gr, ag, hq.symm⟩

/-- Witness for C3 at a concrete Empty input: mode code 7 yields the
unknown-enum error, and the valid codes 0 and 1 construct Partial and
Final aggregates. -/
theorem hash_aggregate_mode_decoding_witness :
    try_into (.mk (some (.hashAggregate
        (some (.mk (some (.empty (some ⟨["a"]⟩) false)))) 7 [] []))) =
      .err (.unknownAggregateMode 7) ∧
    (∃ gr ag, ExecPlan.hashAggregateExec .Partial [] [] (.emptyExec false ["a"]) =
        .hashAggregateExec .Partial gr ag (.emptyExec false ["a"])) ∧
    (∃ gr ag, ExecPlan.hashAggregateExec .Final [] [] (.emptyExec false ["a"]) =
        .hashAggregateExec .Final gr ag (.emptyExec false ["a"])) :=
  ⟨(hash_aggregate_mode_decoding (.mk (some (.empty (some ⟨["a"]⟩) false)))
      (.emptyExec false ["a"]) 7 [] [] rfl).1 (by decide) (by decide),
   (hash_aggregate_mode_decoding (.mk (some (.empty (some ⟨["a"]⟩) false)))
      (.emptyExec false ["a"]) 7 [] [] rfl).2.1 _ rfl,
   (hash_aggregate_mode_decoding (.mk (some (.empty (some ⟨["a"]⟩) false)))
      (.emptyExec false ["a"]) 7 [] [] rfl).2.2 _ rfl⟩

/-- C4: translating a HashJoin node whose children translate decodes
the join-type code after both children — a code outside {0, 1, 2}
fails with the unknown-enum error carrying the code, and the valid
codes 0, 1 and 2 deterministically construct Inner, Left and Right
joins respectively over the equality-key name pairs. -/
theorem hash_join_type_decoding (leftNode rightNode : PhysicalPlanNode)
    (leftPlan rightPlan : ExecPlan) (onList : List JoinOn) (jt : Int)
    (hl : try_into leftNode = .ok leftPlan)
    (hr : try_into rightNode = .ok rightPlan) :
    (jt ≠ 0 → jt ≠ 1 → jt ≠ 2 →
      try_into (.mk (some (.hashJoin (some leftNode) (some rightNode) onList jt))) =
        .err (.unknownJoinType jt)) ∧
    (try_into (.mk (some (.hashJoin (some leftNode) (some rightNode) onList 0))) =
      .ok (.hashJoinExec leftPlan rightPlan
        (onList.map (fun c => (c.left, c.right))) .Inner)) ∧
    (try_into (.mk (some (.hashJoin (some leftNode) (some rightNode) onList 1))) =
      .ok (.hashJoinExec leftPlan rightPlan
        (onList.map (fun c => (c.left, c.right))) .Left)) ∧
    (try_into (.mk (some (.hashJoin (some leftNode) (some rightNode) onList 2))) =
      .ok (.hashJoinExec leftPlan rightPlan
        (onList.map (fun c => (c.left, c.right))) .Right)) := by
  refine ⟨?_, ?_, ?_, ?_⟩
  · intro h0 h1 h2
    have hj : joinTypeFromI32 jt = none := by
      simp [joinTypeFromI32, h0, h1, h2]
    simp only [try_into]
    rw [hl]
    simp only [RResult.bind]
    rw [hr]
    simp [RResult.bind, hj]
  · have hj : joinTypeFromI32 0 = some .Inner := by simp [joinTypeFromI32]
    simp only [try_into]
    rw [hl]
    simp only [RResult.bind]
    rw [hr]
    simp [RResult.bind, hj, joinTypeOfProto, HashJoinExec.try_new, RResult.ofExcept]
  · have hj : joinTypeFromI32 1 = some .Left := by simp [joinTypeFromI32]
    simp only [try_into]
    rw [hl]
    simp only [RResult.bind]
    rw [hr]
    simp [RResult.bind, hj, joinTypeOfProto, HashJoinExec.try_new, RResult.ofExcept]
  · have hj : joinTypeFromI32 2 = some .Right := by simp [joinTypeFromI32]
    simp only [try_into]
    rw [hl]
    simp only [RResult.bind]
    rw [hr]
    simp [RResult.bind, hj, joinTypeOfProto, HashJoinExec.try_new, RResult.ofExcept]

/-- Witness for C4 at concrete Empty children: join-type code 9 yields
the unknown-enum error, and codes 0, 1 and 2 construct Inner, Left and
Right joins over the listed name pair. -/
theorem hash_join_type_decoding_witness :
    try_into (.mk (some (.hashJoin
        (some (.mk (some (.empty (some ⟨["a"]⟩) false))))
        (some (.mk (some (.empty (some ⟨["b"]⟩) false))))
        [⟨"a", "b"⟩] 9))) = .err (.unknownJoinType 9) ∧
    try_into (.mk (some (.hashJoin
        (some (.mk (some (.empty (some ⟨["a"]⟩) false))))
        (some (.mk (some (.empty (some ⟨["b"]⟩) false))))
        [⟨"a", "b"⟩] 0))) =
      .ok (.hashJoinExec (.emptyExec false ["a"]) (.emptyExec false ["b"])
        (([⟨"a", "b"⟩] : List JoinOn).map (fun c => (c.left, c.right))) .Inner) ∧
    try_into (.mk (some (.hashJoin
        (some (.mk (some (.empty (some ⟨["a"]⟩) false))))
        (some (.mk (some (.empty (some ⟨["b"]⟩) false))))
        [⟨"a", "b"⟩] 1))) =
      .ok (.hashJoinExec (.emptyExec false ["a"]) (.emptyExec false ["b"])
        (([⟨"a", "b"⟩] : List JoinOn).map (fun c => (c.left, c.right))) .Left) ∧
    try_into (.mk (some (.hashJoin
        (some (.mk (some (.empty (some ⟨["a"]⟩) false))))
        (some (.mk (some (.empty (some ⟨["b"]⟩) false))))
        [⟨"a", "b"⟩] 2))) =
      .ok (.hashJoinExec (.emptyExec false ["a"]) (.emptyExec false ["b"])
        (([⟨"a", "b"⟩] : List JoinOn).map (fun c => (c.left, c.right))) .Right) :=
  ⟨(hash_join_type_decoding (.mk (some (.empty (some ⟨["a"]⟩) false)))
      (.mk (some (.empty (some ⟨["b"]⟩) false))) (.emptyExec false ["a"])
      (.emptyExec false ["b"]) [⟨"a", "b"⟩] 9 rfl rfl).1
      (by decide) (by decide) (by decide),
   (hash_join_type_decoding (.mk (some (.empty (some ⟨["a"]⟩) false)))
      (.mk (some (.empty (some ⟨["b"]⟩) false))) (.emptyExec false ["a"])
      (.emptyExec false ["b"]) [⟨"a", "b"⟩] 9 rfl rfl).2.1,
   (hash_join_type_decoding (.mk (some (.empty (some ⟨["a"]⟩) false)))
      (.mk (some (.empty (some ⟨["b"]⟩) false))) (.emptyExec false ["a"])
      (.emptyExec false ["b"]) [⟨"a", "b"⟩] 9 rfl rfl).2.2.1,
   (hash_join_type_decoding (.mk (some (.empty (some ⟨["a"]⟩) false)))
      (.mk (some (.empty (some ⟨["b"]⟩) false))) (.emptyExec false ["a"])
      (.emptyExec false ["b"]) [⟨"a", "b"⟩] 9 rfl rfl).2.2.2⟩

/-- C5: when a Sort node translates successfully, each of its wire
sort descriptors produced the sort expression at the same position,
whose descending flag is the negation of the wire asc flag and whose
nulls_first flag equals the wire nulls_first flag unchanged. -/
theorem sort_flags_from_wire (inputNode : PhysicalPlanNode) (inputPlan : ExecPlan)
    (exprList : List LogicalExprNode) (out : ExecPlan)
    (hin : try_into inputNode = .ok inputPlan)
    (hout : try_into (.mk (some (.sort (some inputNode) exprList))) = .ok out) :
    ∃ ses, out = .sortExec ses inputPlan 1 ∧ ses.length = exprList.length ∧
      ∀ (i : Nat) (hi : i < exprList.length) (child : Option LogicalExprNode)
        (asc nf : Bool),
        exprList.get ⟨i, hi⟩ = .mk (some (.sort child asc nf)) →
        ∃ hs : i < ses.length,
          (ses.get ⟨i, hs⟩).options.descending = !asc ∧
          (ses.get ⟨i, hs⟩).options.nulls_first = nf := by
  simp only [try_into] at hout
  rw [hin] at hout
  simp only [RResult.bind] at hout
  obtain ⟨ses, hses, hout⟩ := RResult.bind_eq_ok _ _ _ hout
  simp only [SortExec.try_new, RResult.ofExcept] at hout
  injection hout with hout
  obtain ⟨hlen, hpt⟩ := RResult.mapList_ok_pointwise _ _ _ hses
  refine ⟨ses, hout.symm, hlen, ?_⟩
  intro i hi child asc nf hget
  have hs : i < ses.length := by omega
  refine ⟨hs, ?_⟩
  have hone := hpt i hi hs
  rw [hget] at hone
  cases child with
  | none => simp [sortExprFromProto, LogicalExprNode.expr_type] at hone
  | some c =>
    cases hce : compile_expr c inputPlan.schema with
    | error e2 => simp [sortExprFromProto, LogicalExprNode.expr_type, hce] at hone
    | ok pe =>
      simp only [sortExprFromProto, LogicalExprNode.expr_type, hce] at hone
      injection hone with hone
      rw [← hone]
      exact ⟨rfl, rfl⟩

/-- Witness for C5 at a concrete Sort over an Empty input, with one
descriptor carrying asc = true and nulls_first = false. -/
theorem sort_flags_from_wire_witness :
    ∃ ses, (ExecPlan.sortExec
        [⟨.column "a", ⟨false, true⟩⟩] (.emptyExec false ["a"]) 1) =
        .sortExec ses (.emptyExec false ["a"]) 1 ∧
      ses.length = [LogicalExprNode.mk (some (.sort
        (some (.mk (some (.column "a")))) true true))].length ∧
      ∀ (i : Nat)
        (hi : i < [LogicalExprNode.mk (some (.sort
          (some (.mk (some (.column "a")))) true true))].length)
        (child : Option LogicalExprNode) (asc nf : Bool),
        [LogicalExprNode.mk (some (.sort
          (some (.mk (some (.column "a")))) true true))].get ⟨i, hi⟩ =
          .mk (some (.sort child asc nf)) →
        ∃ hs : i < ses.length,
          (ses.get ⟨i, hs⟩).options.descending = !asc ∧
          (ses.get ⟨i, hs⟩).options.nulls_first = nf :=
  sort_flags_from_wire (.mk (some (.empty (some ⟨["a"]⟩) false)))
    (.emptyExec false ["a"])
    [.mk (some (.sort (some (.mk (some (.column "a")))) true true))]
    (.sortExec [⟨.column "a", ⟨false, true⟩⟩] (.emptyExec false ["a"]) 1)
    rfl rfl

/-- C6: a Sort node whose expression list contains an expression whose
discriminator is present but is not the sort-descriptor variant fails
translation by returning an error — not a panic and not a silent
pass-through. -/
theorem sort_non_descriptor_errors (inputNode : PhysicalPlanNode)
    (inputPlan : ExecPlan) (exprList : List LogicalExprNode)
    (e : LogicalExprNode) (et : ExprType)
    (hin : try_into inputNode = .ok inputPlan)
    (hmem : e ∈ exprList)
    (het : e.expr_type = some et)
    (hnot : ∀ child asc nf, et ≠ .sort child asc nf) :
    ∃ b, try_into (.mk (some (.sort (some inputNode) exprList))) = .err b := by
  simp only [try_into]
  rw [hin]
  simp only [RResult.bind]
  cases hml : RResult.mapList
      (sortExprFromProto (.mk (some (.sort (some inputNode) exprList)))
        inputPlan.schema) exprList with
  | ok r =>
    exfalso
    obtain ⟨y, hy⟩ := RResult.mapList_mem_ok _ e _ _ hml hmem
    cases e with
    | mk t =>
      simp only [LogicalExprNode.expr_type] at het
      subst het
      cases et with
      | column name => simp [sortExprFromProto, LogicalExprNode.expr_type] at hy
      | literal v => simp [sortExprFromProto, LogicalExprNode.expr_type] at hy
      | aggregateExpr fn a =>
        simp [sortExprFromProto, LogicalExprNode.expr_type] at hy
      | sort child asc nf => exact hnot child asc nf rfl
  | err b => exact ⟨b, rfl⟩
  | panicked m =>
    exfalso
    obtain ⟨x, _, hfx⟩ := RResult.mapList_panicked_mem _ _ _ hml
    exact sortExprFromProto_no_panic _ _ _ _ hfx

/-- Witness for C6: a Sort node whose only sort expression is a bare
column reference fails with an error. -/
theorem sort_non_descriptor_errors_witness :
    ∃ b, try_into (.mk (some (.sort
        (some (.mk (some (.empty (some ⟨["a"]⟩) false))))
        [.mk (some (.column "a"))]))) = .err b :=
  sort_non_descriptor_errors (.mk (some (.empty (some ⟨["a"]⟩) false)))
    (.emptyExec false ["a"]) [.mk (some (.column "a"))]
    (.mk (some (.column "a"))) (.column "a") rfl
    (by simp) rfl (fun child asc nf h => by cases h)

/-- C7: a ShuffleReader node whose partition-location entries all
decode translates to a shuffle-read operator tracking exactly as many
partitions as were listed, in the original order with the decoded
location of the i-th entry stored at position i; and if any single
entry fails to decode, the whole translation fails with an error and
no operator with a partial partition list is returned. -/
theorem shuffle_reader_partitions (ps : ProtoSchema)
    (locs : List ProtoPartitionLocation) :
    ((∀ p ∈ locs, ∃ d, decodePartitionLocation p = .ok d) →
      ∃ decoded,
        try_into (.mk (some (.shuffleReader (some ps) locs))) =
          .ok (.shuffleReaderExec decoded (decodeSchema ps)) ∧
        decoded.length = locs.length ∧
        ∀ (i : Nat) (hi : i < locs.length) (hd : i < decoded.length),
          decodePartitionLocation (locs.get ⟨i, hi⟩) = .ok (decoded.get ⟨i, hd⟩)) ∧
    (∀ p ∈ locs, ∀ e2, decodePartitionLocation p = .error e2 →
      ∃ b, try_into (.mk (some (.shuffleReader (some ps) locs))) = .err b) := by
  constructor
  · intro hall
    obtain ⟨decoded, hml⟩ := RResult.mapList_ok_of_forall
      (fun p => RResult.ofExcept (decodePartitionLocation p)) locs
      (fun p hp => by
        obtain ⟨d, hd⟩ := hall p hp
        exact ⟨d, by simp [RResult.ofExcept, hd]⟩)
    obtain ⟨hlen, hpt⟩ := RResult.mapList_ok_pointwise _ _ _ hml
    refine ⟨decoded, ?_, hlen, ?_⟩
    · simp only [try_into]
      rw [hml]
      simp [RResult.bind, ShuffleReaderExec.try_new, RResult.ofExcept]
    · intro i hi hd
      have hone := hpt i hi hd
      cases hde : decodePartitionLocation (locs.get ⟨i, hi⟩) with
      | error e2 => rw [hde] at hone; simp [RResult.ofExcept] at hone
      | ok d =>
        rw [hde] at hone
        simp only [RResult.ofExcept] at hone
        injection hone with hone
        rw [hone]
  · intro p hp e2 hde
    cases hml : RResult.mapList
        (fun p => RResult.ofExcept (decodePartitionLocation p)) locs with
    | ok r =>
      exfalso
      obtain ⟨y, hy⟩ := RResult.mapList_mem_ok _ p _ _ hml hp
      rw [hde] at hy
      simp [RResult.ofExcept] at hy
    | err b =>
      exact ⟨b, by simp only [try_into]; rw [hml]; rfl⟩
    | panicked m =>
      exfalso
      obtain ⟨x, _, hfx⟩ := RResult.mapList_panicked_mem _ _ _ hml
      cases hdx : decodePartitionLocation x with
      | error e3 => rw [hdx] at hfx; simp [RResult.ofExcept] at hfx
      | ok d => rw [hdx] at hfx; simp [RResult.ofExcept] at hfx

/-- Witness for C7: three concrete partition locations decode to an
operator tracking exactly three partitions in order, and a list whose
second entry is missing its fields makes translation fail. -/
theorem shuffle_reader_partitions_witness :
    (∃ decoded,
      try_into (.mk (some (.shuffleReader (some ⟨["a"]⟩)
          [⟨some 0, some "exec0"⟩, ⟨some 1, some "exec1"⟩,
           ⟨some 2, some "exec2"⟩]))) =
        .ok (.shuffleReaderExec decoded (decodeSchema ⟨["a"]⟩)) ∧
      decoded.length = ([⟨some 0, some "exec0"⟩, ⟨some 1, some "exec1"⟩,
          ⟨some 2, some "exec2"⟩] : List ProtoPartitionLocation).length ∧
      ∀ (i : Nat)
        (hi : i < ([⟨some 0, some "exec0"⟩, ⟨some 1, some "exec1"⟩,
          ⟨some 2, some "exec2"⟩] : List ProtoPartitionLocation).length)
        (hd : i < decoded.length),
        decodePartitionLocation (([⟨some 0, some "exec0"⟩,
          ⟨some 1, some "exec1"⟩, ⟨some 2, some "exec2"⟩] :
            List ProtoPartitionLocation).get ⟨i, hi⟩) =
          .ok (decoded.get ⟨i, hd⟩)) ∧
    (∃ b, try_into (.mk (some (.shuffleReader (some ⟨["a"]⟩)
        [⟨some 0, some "exec0"⟩, ⟨none, none⟩]))) = .err b) :=
  ⟨(shuffle_reader_partitions ⟨["a"]⟩
      [⟨some 0, some "exec0"⟩, ⟨some 1, some "exec1"⟩, ⟨some 2, some "exec2"⟩]).1
      (by intro p hp
          fin_cases hp
          · exact ⟨⟨0, "exec0"⟩, rfl⟩
          · exact ⟨⟨1, "exec1"⟩, rfl⟩
          · exact ⟨⟨2, "exec2"⟩, rfl⟩),
   (shuffle_reader_partitions ⟨["a"]⟩
      [⟨some 0, some "exec0"⟩, ⟨none, none⟩]).2
      ⟨none, none⟩ (by simp) .missingPartitionField rfl⟩

/-- C8: whatever the wire fields say, a CsvScan node that translates
successfully produced a CSV scan operator with the executor-chosen
batch size 32768 (the options carrying only wire-derived data), and a
ParquetScan node that translates successfully produced a Parquet scan
operator with batch size 32768 and maximum file-read concurrency 8. -/
theorem scan_fixed_tuning :
    (∀ (path : String) (ps : ProtoSchema) (hh : Bool) (fe delim : String)
        (proj : List Nat) (out : ExecPlan),
      try_into (.mk (some (.csvScan path (some ps) hh fe delim proj))) = .ok out →
      ∃ d, out = .csvExec path ⟨hh, fe, d, decodeSchema ps⟩ proj 32768) ∧
    (∀ (files : List String) (proj : List Nat) (out : ExecPlan),
      try_into (.mk (some (.parquetScan files proj))) = .ok out →
      out = .parquetExec files proj 32768 8) := by
  constructor
  · intro path ps hh fe delim proj out hout
    simp only [try_into] at hout
    cases hfb : firstByte delim with
    | ok c =>
      rw [hfb] at hout
      simp only [RResult.bind, CsvExec.try_new, RResult.ofExcept] at hout
      injection hout with hout
      exact ⟨c, hout.symm⟩
    | err e2 => rw [hfb] at hout; simp [RResult.bind] at hout
    | panicked m => rw [hfb] at hout; simp [RResult.bind] at hout
  · intro files proj out hout
    simp only [try_into, ParquetExec.try_from_files, RResult.ofExcept] at hout
    injection hout with hout
    exact hout.symm

/-- Witness for C8 at a concrete CSV scan and a concrete Parquet
scan. -/
theorem scan_fixed_tuning_witness :
    (∃ d, ExecPlan.csvExec "data.csv" ⟨true, ".csv", ',', decodeSchema ⟨["a"]⟩⟩
          [0] 32768 =
        .csvExec "data.csv" ⟨true, ".csv", d, decodeSchema ⟨["a"]⟩⟩ [0] 32768) ∧
    ExecPlan.parquetExec ["part0.parquet"] [0] 32768 8 =
      .parquetExec ["part0.parquet"] [0] 32768 8 :=
  ⟨scan_fixed_tuning.1 "data.csv" ⟨["a"]⟩ true ".csv" "," [0]
      (.csvExec "data.csv" ⟨true, ".csv", ',', decodeSchema ⟨["a"]⟩⟩ [0] 32768) rfl,
   scan_fixed_tuning.2 ["part0.parquet"] [0]
      (.parquetExec ["part0.parquet"] [0] 32768 8) rfl⟩

/-- Witness for the amended C2 at a concrete Empty input. -/
theorem projection_single_column_schema_witness :
    try_into (.mk (some (.projection
        (some (.mk (some (.empty (some ⟨["b"]⟩) true))))
        [.mk (some (.column "b"))]))) =
      .ok (.projectionExec [(.column "b", "unused")] (.emptyExec true ["b"])) ∧
    ExecPlan.schema (.projectionExec [(.column "b", "unused")] (.emptyExec true ["b"])) =
      ["unused"] :=
  projection_single_column_schema _ _ _ rfl rfl

end Ballista
